import Mathlib

/-!
Verification of the TradeStreet market-simulation core: a shallow embedding of
the price engine, the bounded history/news buffers, the portfolio ledger, the
market-tick loop and the news generator, with theorems checking the spec's
claims against them.

Numeric values are modelled as rationals (ℚ); timestamps (milliseconds) as
integers (ℤ).  The single `Math.random()` draw of the price engine is passed
in explicitly as a rational `u` with `0 ≤ u < 1`.
-/

/-- A company of the fixed roster (types/market: Company). -/
structure Company where
  ticker : String
  name : String
  sector : String
  description : String
  basePrice : ℚ
  volatility : ℚ
  deriving DecidableEq

/-- One point of a ticker's price history (types/market: PricePoint). -/
structure PricePoint where
  ticker : String
  price : ℚ
  timestamp : ℤ
  deriving DecidableEq

/-- A news event consulted by the price engine (types/market: NewsEvent). -/
structure NewsEvent where
  ticker : String
  headline : String
  body : String
  sentiment : ℚ
  magnitude : ℚ
  timestamp : ℤ
  deriving DecidableEq

/-- The drift term of `calculateNewPrice`:
`(Math.random() - 0.5) * 0.02 * Math.max(1, timeDelta)` with the random draw
`u` made explicit. -/
def driftTerm (u timeDelta : ℚ) : ℚ :=
  (u - 1 / 2) * (2 / 100) * max 1 timeDelta

/-- The filter of `calculateNewPrice`: news for this ticker whose timestamp is
within the last 120 seconds (`now - n.timestamp < 120000` ms). -/
def recentNewsFor (now : ℤ) (ticker : String) (news : List NewsEvent) :
    List NewsEvent :=
  news.filter (fun n => n.ticker == ticker && decide (now - n.timestamp < 120000))

/-- The reduce of `calculateNewPrice`:
`reduce((sum, news) => sum + news.sentiment * news.magnitude, 0)`. -/
def sentimentSum (l : List NewsEvent) : ℚ :=
  l.foldl (fun sum n => sum + n.sentiment * n.magnitude) 0

/-- The sentiment impact of `calculateNewPrice`: zero when no recent news for
the company, otherwise `totalImpact * company.volatility * 0.08`. -/
def sentimentImpactOf (now : ℤ) (company : Company) (news : List NewsEvent) : ℚ :=
  let recent := recentNewsFor now company.ticker news
  if 0 < recent.length then
    sentimentSum recent * company.volatility * (8 / 100)
  else 0

/-- utils/priceEngine `calculateNewPrice`, with the random draw `u` and the
wall clock `now` passed explicitly.  Mirrors the source: drift, sentiment
impact from recent news, volatility multiplier, and the `Math.max(·, 0.01)`
floor. -/
def calculateNewPrice (u : ℚ) (now : ℤ) (currentPrice : ℚ) (company : Company)
    (recentNews : List NewsEvent) (timeDelta : ℚ := 1) : ℚ :=
  let drift := driftTerm u timeDelta
  let sentimentImpact := sentimentImpactOf now company recentNews
  let volatilityMultiplier := 1 + company.volatility * (1 / 2)
  let priceChangePercent := (drift + sentimentImpact) * volatilityMultiplier
  let newPrice := currentPrice * (1 + priceChangePercent)
  max newPrice (1 / 100)

/-- utils/priceEngine `initializePriceHistory`: a single point at the base
price. -/
def initializePriceHistory (ticker : String) (basePrice : ℚ) (now : ℤ) :
    List PricePoint :=
  [{ ticker := ticker, price := basePrice, timestamp := now }]

/-- The spec's closed-form price formula (§4.1 steps 4–5):
`newPrice = currentPrice × (1 + (drift + sentimentImpact) × (1 + volatility × 0.5))`,
written from the spec's words for comparison with `calculateNewPrice`. -/
def specNextPriceFormula (currentPrice drift sentimentImpact volatility : ℚ) : ℚ :=
  currentPrice * (1 + (drift + sentimentImpact) * (1 + volatility * (1 / 2)))

/-- The history append of the tick loop (useMarket): push the new point to
the tail, then `if (history.length > 100) history.shift()`. -/
def historyAppend (history : List PricePoint) (p : PricePoint) : List PricePoint :=
  let h := history ++ [p]
  if 100 < h.length then h.tail else h

/-- The news merge of `generateAndUpdateNews` (useMarket): concatenate the new
events, then `if (updatedNews.length > 50) updatedNews.splice(0, length - 50)`. -/
def newsAppend (news newEvents : List NewsEvent) : List NewsEvent :=
  let u := news ++ newEvents
  if 50 < u.length then u.drop (u.length - 50) else u

/-- A held position (types/market: Position). -/
structure Position where
  shares : ℤ
  averageCost : ℚ
  deriving DecidableEq

/-- The portfolio value object (types/market: Portfolio); positions as an
association list keyed by ticker. -/
structure Portfolio where
  cash : ℚ
  positions : List (String × Position)
  deriving DecidableEq

/-- The trade-error taxonomy of §7. -/
inductive TradeError where
  | invalidQuantity
  | insufficientFunds
  | insufficientShares
  | noPosition
  deriving DecidableEq

/-- Lookup of a ticker's position (JS object access on `positions`). -/
def findPosition (ps : List (String × Position)) (ticker : String) :
    Option Position :=
  (ps.find? (fun q => q.1 == ticker)).map Prod.snd

/-- Store a position under a ticker: replace the existing entry, else append. -/
def setPosition (ps : List (String × Position)) (ticker : String)
    (pos : Position) : List (String × Position) :=
  if ps.any (fun q => q.1 == ticker) then
    ps.map (fun q => if q.1 == ticker then (ticker, pos) else q)
  else ps ++ [(ticker, pos)]

/-- Delete a ticker's entry from `positions`. -/
def removePosition (ps : List (String × Position)) (ticker : String) :
    List (String × Position) :=
  ps.filter (fun q => !(q.1 == ticker))

/-- Modelled from the spec: `buyStock` of utils/portfolio, whose source is not
under src/.  §4.2: fails with InvalidQuantity when shares ≤ 0, with
InsufficientFunds when shares × price > cash; on success deducts
shares × price from cash and merges into the existing position with
weighted-average cost. -/
def buyStock (portfolio : Portfolio) (ticker : String) (shares : ℤ)
    (price : ℚ) : Except TradeError Portfolio :=
  if shares ≤ 0 then .error .invalidQuantity
  else if portfolio.cash < shares * price then .error .insufficientFunds
  else
    let newPos : Position :=
      match findPosition portfolio.positions ticker with
      | some pos =>
          { shares := pos.shares + shares,
            averageCost :=
              (pos.shares * pos.averageCost + shares * price) /
                (pos.shares + shares) }
      | none => { shares := shares, averageCost := price }
    .ok { cash := portfolio.cash - shares * price,
          positions := setPosition portfolio.positions ticker newPos }

/-- Modelled from the spec: `sellStock` of utils/portfolio, whose source is
not under src/.  §4.2: fails with InvalidQuantity when shares ≤ 0, NoPosition
when the ticker is absent, InsufficientShares when shares > held; on success
credits shares × price to cash, reduces held shares, removes the position when
they reach 0, and leaves the average cost unchanged. -/
def sellStock (portfolio : Portfolio) (ticker : String) (shares : ℤ)
    (price : ℚ) : Except TradeError Portfolio :=
  if shares ≤ 0 then .error .invalidQuantity
  else
    match findPosition portfolio.positions ticker with
    | none => .error .noPosition
    | some pos =>
        if pos.shares < shares then .error .insufficientShares
        else
          let remaining := pos.shares - shares
          let newPositions :=
            if remaining = 0 then removePosition portfolio.positions ticker
            else setPosition portfolio.positions ticker
              { shares := remaining, averageCost := pos.averageCost }
          .ok { cash := portfolio.cash + shares * price,
                positions := newPositions }

/-- A trade request: ticker, share count and the quoted price. -/
inductive TradeOp where
  | buy (ticker : String) (shares : ℤ) (price : ℚ)
  | sell (ticker : String) (shares : ℤ) (price : ℚ)

/-- The quoted price of a trade request. -/
def TradeOp.price : TradeOp → ℚ
  | .buy _ _ p => p
  | .sell _ _ p => p

/-- Run one trade against a portfolio; a failed ledger call leaves the
portfolio unchanged (§4.4). -/
def applyTradeOp (p : Portfolio) (op : TradeOp) : Portfolio :=
  match op with
  | .buy t s pr =>
      match buyStock p t s pr with
      | .ok q => q
      | .error _ => p
  | .sell t s pr =>
      match sellStock p t s pr with
      | .ok q => q
      | .error _ => p

/-- The portfolio invariants of §3: cash ≥ 0 and every stored position holds
strictly positive shares. -/
def ValidPortfolio (p : Portfolio) : Prop :=
  0 ≤ p.cash ∧ ∀ q ∈ p.positions, 0 < q.2.shares

instance (p : Portfolio) : Decidable (ValidPortfolio p) := by
  unfold ValidPortfolio; infer_instance

/-- The orchestrator-owned state (types/market: MarketState); the `prices` and
`priceHistory` records are modelled as total maps over tickers. -/
structure MarketState where
  companies : List Company
  prices : String → ℚ
  priceHistory : String → List PricePoint
  news : List NewsEvent
  portfolio : Portfolio

/-- Pointwise update of a ticker-keyed map (JS `obj[key] = v`). -/
def updateFn {α : Type} (m : String → α) (key : String) (v : α) : String → α :=
  fun s => if s = key then v else m s

/-- One company's step inside the tick loop of useMarket: read the current
price and history from the previous snapshot, compute the new price, append
the new point (keeping the last 100), and record both under the ticker. -/
def tickCompany (now : ℤ) (u : String → ℚ) (prev : MarketState)
    (acc : (String → ℚ) × (String → List PricePoint)) (company : Company) :
    (String → ℚ) × (String → List PricePoint) :=
  let currentPrice := prev.prices company.ticker
  let newPrice := calculateNewPrice (u company.ticker) now currentPrice
    company prev.news
  let history := historyAppend (prev.priceHistory company.ticker)
    { ticker := company.ticker, price := newPrice, timestamp := now }
  (updateFn acc.1 company.ticker newPrice,
   updateFn acc.2 company.ticker history)

/-- One firing of the price-tick interval of useMarket: fold over the
companies building fresh `newPrices`/`newPriceHistory` maps from the previous
snapshot, then replace both in the state at once. -/
def marketTick (prev : MarketState) (now : ℤ) (u : String → ℚ) : MarketState :=
  let res := prev.companies.foldl (tickCompany now u prev)
    (fun _ => 0, fun _ => [])
  { prev with prices := res.1, priceHistory := res.2 }

/-- useMarket `handleBuy`: read the ticker's quoted price from state, delegate
to the ledger, and replace the portfolio; on a ledger error the state is
returned unchanged alongside the propagated error. -/
def handleBuy (state : MarketState) (ticker : String) (shares : ℤ) :
    MarketState × Option TradeError :=
  match buyStock state.portfolio ticker shares (state.prices ticker) with
  | .ok pf => ({ state with portfolio := pf }, none)
  | .error e => (state, some e)

/-- useMarket `handleSell`: the selling counterpart of `handleBuy`. -/
def handleSell (state : MarketState) (ticker : String) (shares : ℤ) :
    MarketState × Option TradeError :=
  match sellStock state.portfolio ticker shares (state.prices ticker) with
  | .ok pf => ({ state with portfolio := pf }, none)
  | .error e => (state, some e)

/-- One fallback headline template (api/generateNews). -/
structure NewsTemplate where
  headline : String
  sentiment : ℚ
  magnitude : ℚ

/-- The positive fallback templates of `generateFallbackNews`. -/
def positiveTemplates : List NewsTemplate :=
  [{ headline := "Reports Strong Quarterly Earnings, Beats Estimates",
     sentiment := 8/10, magnitude := 7/10 },
   { headline := "Signs Major Partnership Deal Worth Millions",
     sentiment := 7/10, magnitude := 6/10 },
   { headline := "FDA Approves New Product for Market",
     sentiment := 9/10, magnitude := 8/10 },
   { headline := "Analyst Upgrades Stock to Buy Rating",
     sentiment := 6/10, magnitude := 5/10 },
   { headline := "Announces Breakthrough Innovation",
     sentiment := 85/100, magnitude := 75/100 }]

/-- The negative fallback templates of `generateFallbackNews`. -/
def negativeTemplates : List NewsTemplate :=
  [{ headline := "Reports Earnings Miss, Stock Drops",
     sentiment := -7/10, magnitude := 7/10 },
   { headline := "Faces Regulatory Investigation",
     sentiment := -8/10, magnitude := 8/10 },
   { headline := "Product Recall Announced",
     sentiment := -9/10, magnitude := 9/10 },
   { headline := "Key Executive Resigns Unexpectedly",
     sentiment := -6/10, magnitude := 6/10 },
   { headline := "Loses Major Contract to Competitor",
     sentiment := -75/100, magnitude := 7/10 }]

/-- The body templates of `generateFallbackNews` (the first interpolates the
company sector). -/
def bodyTemplates (company : Company) : List String :=
  ["The " ++ company.sector ++
     " sector company\x27s stock is moving in response to market developments.",
   "Investors are reacting to breaking news affecting the company\x27s valuation.",
   "Market analysts are closely watching the impact of this development.",
   "The announcement is expected to significantly influence trading activity."]

/-- api/generateNews `generateFallbackNews`: for each `i` below both `count`
and the roster size, pick a random company, a random positive or negative
template and a random body, and emit an event stamped `now + i * 100`.  The
random draws are passed in as choice functions (`pickCompany i` etc.), reduced
modulo the list lengths as `Math.floor(Math.random() * length)` is. -/
def generateFallbackNews (companies : List Company) (count : ℕ) (now : ℤ)
    (pickCompany : ℕ → ℕ) (pickPositive : ℕ → Bool) (pickTemplate : ℕ → ℕ)
    (pickBody : ℕ → ℕ) : List NewsEvent :=
  (List.range (min count companies.length)).filterMap (fun i =>
    match companies.get? (pickCompany i % companies.length) with
    | none => none
    | some company =>
        let templates :=
          if pickPositive i then positiveTemplates else negativeTemplates
        match templates.get? (pickTemplate i % templates.length) with
        | none => none
        | some template =>
            let bodies := bodyTemplates company
            some
              { ticker := company.ticker,
                headline := company.ticker ++ ": " ++ template.headline,
                body := (bodies.get? (pickBody i % bodies.length)).getD "",
                sentiment := template.sentiment,
                magnitude := template.magnitude,
                timestamp := now + i * 100 })

/-- A structured news payload parsed from the external collaborator's
response, before a timestamp is attached. -/
structure RawNews where
  ticker : String
  headline : String
  body : String
  sentiment : ℚ
  magnitude : ℚ

/-- The success path of api/generateNews: keep only events whose ticker
matches a known company, truncate to `count`, and stamp each with `now`. -/
def generateNewsSuccess (companies : List Company) (count : ℕ)
    (raw : List RawNews) (now : ℤ) : List NewsEvent :=
  (((raw.filter (fun n => companies.any (fun c => c.ticker == n.ticker))).take
      count).map (fun n =>
    { ticker := n.ticker, headline := n.headline, body := n.body,
      sentiment := n.sentiment, magnitude := n.magnitude, timestamp := now }))

/-- api/generateNews `generateNews`: the external call's parsed result is
passed as `response` (`none` for any failure: HTTP error, no JSON array,
unparseable payload); on failure the local fallback generator is used. -/
def generateNews (companies : List Company) (count : ℕ) (now : ℤ)
    (response : Option (List RawNews)) (pickCompany : ℕ → ℕ)
    (pickPositive : ℕ → Bool) (pickTemplate : ℕ → ℕ) (pickBody : ℕ → ℕ) :
    List NewsEvent :=
  match response with
  | some raw => generateNewsSuccess companies count raw now
  | none =>
      generateFallbackNews companies count now pickCompany pickPositive
        pickTemplate pickBody

/-! ## Claim theorems -/

/-- C1: every call of the price engine returns
`currentPrice × (1 + (drift + sentimentImpact) × (1 + volatility × 0.5))`
before the floor clamp, and the drift term lies in the symmetric interval of
±1% per unit time scaled by `max(1, timeDeltaSeconds)` (the image of the
uniform draw `u ∈ [0, 1)` under the engine's affine map). -/
theorem C1_price_engine_formula (u : ℚ) (now : ℤ) (currentPrice : ℚ)
    (company : Company) (news : List NewsEvent) (timeDelta : ℚ)
    (h0 : 0 ≤ u) (h1 : u < 1) :
    calculateNewPrice u now currentPrice company news timeDelta =
      max (specNextPriceFormula currentPrice (driftTerm u timeDelta)
        (sentimentImpactOf now company news) company.volatility) (1 / 100) ∧
    -(1 / 100 * max 1 timeDelta) ≤ driftTerm u timeDelta ∧
    driftTerm u timeDelta < 1 / 100 * max 1 timeDelta := by
  have hM1 : (1 : ℚ) ≤ max 1 timeDelta := le_max_left 1 timeDelta
  have hM0 : (0 : ℚ) ≤ max 1 timeDelta := le_trans zero_le_one hM1
  have hMpos : (0 : ℚ) < max 1 timeDelta := lt_of_lt_of_le zero_lt_one hM1
  refine ⟨rfl, ?_, ?_⟩
  · have hlo : (-(1 / 100) : ℚ) ≤ (u - 1 / 2) * (2 / 100) := by linarith
    have := mul_le_mul_of_nonneg_right hlo hM0
    unfold driftTerm
    linarith
  · have hhi : (u - 1 / 2) * (2 / 100) < 1 / 100 := by linarith
    have := mul_lt_mul_of_pos_right hhi hMpos
    unfold driftTerm
    linarith

/-- Witness for C1 at `u = 1/2`, an empty news list and `timeDelta = 1`. -/
theorem C1_price_engine_formula_witness :
    0 ≤ (1 / 2 : ℚ) ∧ (1 / 2 : ℚ) < 1 ∧
    (calculateNewPrice (1 / 2) 0 100
        { ticker := "ACME", name := "", sector := "", description := "",
          basePrice := 100, volatility := 1 } [] 1 =
      max (specNextPriceFormula 100 (driftTerm (1 / 2) 1)
        (sentimentImpactOf 0
          { ticker := "ACME", name := "", sector := "", description := "",
            basePrice := 100, volatility := 1 } [])
        ({ ticker := "ACME", name := "", sector := "", description := "",
           basePrice := 100, volatility := 1 } : Company).volatility) (1 / 100) ∧
    -(1 / 100 * max 1 1) ≤ driftTerm (1 / 2) 1 ∧
    driftTerm (1 / 2) 1 < 1 / 100 * max 1 1) :=
  ⟨by norm_num, by norm_num,
    C1_price_engine_formula (1 / 2) 0 100
      { ticker := "ACME", name := "", sector := "", description := "",
        basePrice := 100, volatility := 1 } [] 1
      (by norm_num) (by norm_num)⟩

/-- The concrete input refuting C2 as stated: volatility 1 and one current
news event of very negative sentiment, as the claim's "arbitrarily large
negative drift/sentiment" allows. -/
def cexCompanyC2 : Company :=
  { ticker := "A", name := "", sector := "", description := "",
    basePrice := 100, volatility := 1 }

/-- The news list of the C2 counterexample. -/
def cexNewsC2 : List NewsEvent :=
  [{ ticker := "A", headline := "", body := "", sentiment := -1000,
     magnitude := 1, timestamp := 0 }]

/-- C2 counterexample: with sentiment −1000 the clamp fires and the engine
returns exactly 0.01, which is not strictly greater than 0.01. -/
theorem C2_floor_counterexample :
    calculateNewPrice (1 / 2) 0 100 cexCompanyC2 cexNewsC2 1 = 1 / 100 ∧
    ¬(1 / 100 < calculateNewPrice (1 / 2) 0 100 cexCompanyC2 cexNewsC2 1) := by
  have h : calculateNewPrice (1 / 2) 0 100 cexCompanyC2 cexNewsC2 1 = 1 / 100 := by
    norm_num [calculateNewPrice, driftTerm, sentimentImpactOf, recentNewsFor,
      sentimentSum, cexCompanyC2, cexNewsC2, List.filter, max_def]
  exact ⟨h, by rw [h]; exact lt_irrefl _⟩

/-- C2 (amended): for every input the price engine's result is at least 0.01
— hence strictly positive, never zero or negative — but it can equal the
floor 0.01 exactly, so "strictly greater than 0.01" weakens to "≥ 0.01". -/
theorem C2_price_floor (u : ℚ) (now : ℤ) (currentPrice : ℚ)
    (company : Company) (news : List NewsEvent) (timeDelta : ℚ) :
    1 / 100 ≤ calculateNewPrice u now currentPrice company news timeDelta ∧
    0 < calculateNewPrice u now currentPrice company news timeDelta :=
  ⟨le_max_right _ _,
   lt_of_lt_of_le (by norm_num) (le_max_right _ _)⟩

/-- The §3 ranges of a news list: sentiment ∈ [−1, 1], magnitude ∈ [0.3, 1]. -/
def NewsInRange (news : List NewsEvent) : Prop :=
  ∀ n ∈ news, -1 ≤ n.sentiment ∧ n.sentiment ≤ 1 ∧
    3 / 10 ≤ n.magnitude ∧ n.magnitude ≤ 1

instance (news : List NewsEvent) : Decidable (NewsInRange news) := by
  unfold NewsInRange; infer_instance

lemma sentimentSum_foldl_abs_le (l : List NewsEvent) :
    ∀ a : ℚ, (∀ n ∈ l, |n.sentiment * n.magnitude| ≤ 1) →
      |l.foldl (fun sum n => sum + n.sentiment * n.magnitude) a| ≤
        |a| + l.length := by
  induction l with
  | nil => intro a _; simp
  | cons n l ih =>
      intro a h
      have hn : |n.sentiment * n.magnitude| ≤ 1 := h n (List.mem_cons_self n l)
      have ht := ih (a + n.sentiment * n.magnitude)
        (fun m hm => h m (List.mem_cons_of_mem n hm))
      have habs := abs_add a (n.sentiment * n.magnitude)
      simp only [List.foldl_cons, List.length_cons]
      push_cast
      push_cast at ht
      linarith

lemma sentimentSum_abs_le (l : List NewsEvent)
    (h : ∀ n ∈ l, |n.sentiment * n.magnitude| ≤ 1) :
    |sentimentSum l| ≤ l.length := by
  have := sentimentSum_foldl_abs_le l 0 h
  simpa [sentimentSum] using this

/-- C3 (amended): the sentiment impact equals
`volatility × 0.08 × Σ(sentiment_i × magnitude_i)` over the events matching
the ticker within the last 120 seconds (0 if none); under the §3 ranges its
absolute value is at most `0.08 × (number of matching events)` — the per-call
bound of 0.08 holds per matching event, not for the whole sum. -/
theorem C3_sentiment_impact (now : ℤ) (company : Company)
    (news : List NewsEvent) (hv0 : 0 ≤ company.volatility)
    (hv1 : company.volatility ≤ 1) (hr : NewsInRange news) :
    sentimentImpactOf now company news =
      company.volatility * (8 / 100) *
        sentimentSum (recentNewsFor now company.ticker news) ∧
    |sentimentImpactOf now company news| ≤
      8 / 100 * (recentNewsFor now company.ticker news).length := by
  have hev : ∀ n ∈ recentNewsFor now company.ticker news,
      |n.sentiment * n.magnitude| ≤ 1 := by
    intro n hn
    have hmem : n ∈ news := List.mem_of_mem_filter hn
    obtain ⟨h1, h2, h3, h4⟩ := hr n hmem
    have hs : |n.sentiment| ≤ 1 := abs_le.mpr ⟨h1, h2⟩
    have hm : |n.magnitude| ≤ 1 := abs_le.mpr ⟨by linarith, h4⟩
    calc |n.sentiment * n.magnitude| = |n.sentiment| * |n.magnitude| :=
          abs_mul _ _
      _ ≤ 1 * 1 := mul_le_mul hs hm (abs_nonneg _) (by norm_num)
      _ = 1 := one_mul 1
  have hsum := sentimentSum_abs_le _ hev
  constructor
  · simp only [sentimentImpactOf]
    by_cases hc : 0 < (recentNewsFor now company.ticker news).length
    · rw [if_pos hc]; ring
    · rw [if_neg hc]
      have hnil : recentNewsFor now company.ticker news = [] :=
        List.length_eq_zero.mp (by omega)
      rw [hnil]
      simp [sentimentSum]
  · simp only [sentimentImpactOf]
    by_cases hc : 0 < (recentNewsFor now company.ticker news).length
    · rw [if_pos hc]
      have hvabs : |company.volatility| ≤ 1 := by
        rw [abs_of_nonneg hv0]; exact hv1
      have hlen0 : (0 : ℚ) ≤ (recentNewsFor now company.ticker news).length :=
        Nat.cast_nonneg _
      calc |sentimentSum (recentNewsFor now company.ticker news) *
              company.volatility * (8 / 100)|
          = |sentimentSum (recentNewsFor now company.ticker news)| *
              |company.volatility| * (8 / 100) := by
            rw [abs_mul, abs_mul]; norm_num
        _ ≤ ((recentNewsFor now company.ticker news).length : ℚ) * 1 *
              (8 / 100) := by
            apply mul_le_mul_of_nonneg_right _ (by norm_num)
            exact mul_le_mul hsum hvabs (abs_nonneg _) hlen0
        _ = 8 / 100 * (recentNewsFor now company.ticker news).length := by
            ring
    · rw [if_neg hc]
      simp only [abs_zero]
      positivity

/-- Witness for C3 at volatility 1 and one in-range news event. -/
theorem C3_sentiment_impact_witness :
    0 ≤ (cexCompanyC2 : Company).volatility ∧
    (cexCompanyC2 : Company).volatility ≤ 1 ∧
    NewsInRange [] ∧
    (sentimentImpactOf 0 cexCompanyC2 [] =
      cexCompanyC2.volatility * (8 / 100) *
        sentimentSum (recentNewsFor 0 cexCompanyC2.ticker []) ∧
    |sentimentImpactOf 0 cexCompanyC2 []| ≤
      8 / 100 * (recentNewsFor 0 cexCompanyC2.ticker []).length) :=
  ⟨by norm_num [cexCompanyC2], by norm_num [cexCompanyC2],
   by intro n hn; simp at hn,
   C3_sentiment_impact 0 cexCompanyC2 []
     (by norm_num [cexCompanyC2]) (by norm_num [cexCompanyC2])
     (by intro n hn; simp at hn)⟩

/-- The company of the C3 counterexample (volatility 1, within §3's range). -/
def cexCompanyC3 : Company :=
  { ticker := "B", name := "", sector := "", description := "",
    basePrice := 100, volatility := 1 }

/-- Two simultaneous in-range events for the same ticker. -/
def cexNewsC3 : List NewsEvent :=
  [{ ticker := "B", headline := "", body := "", sentiment := 1,
     magnitude := 1, timestamp := 0 },
   { ticker := "B", headline := "", body := "", sentiment := 1,
     magnitude := 1, timestamp := 0 }]

/-- C3 counterexample: with two matching in-range events and volatility 1 the
sentiment impact is 0.16, above the claimed absolute bound of 0.08. -/
theorem C3_bound_counterexample :
    NewsInRange cexNewsC3 ∧
    0 ≤ cexCompanyC3.volatility ∧ cexCompanyC3.volatility ≤ 1 ∧
    sentimentImpactOf 0 cexCompanyC3 cexNewsC3 = 16 / 100 ∧
    ¬(|sentimentImpactOf 0 cexCompanyC3 cexNewsC3| ≤ 8 / 100) := by
  have h : sentimentImpactOf 0 cexCompanyC3 cexNewsC3 = 16 / 100 := by
    norm_num [sentimentImpactOf, recentNewsFor, sentimentSum, cexCompanyC3,
      cexNewsC3, List.filter]
  refine ⟨?_, by norm_num [cexCompanyC3], by norm_num [cexCompanyC3], h, ?_⟩
  · intro n hn
    simp only [cexNewsC3, List.mem_cons, List.not_mem_nil, or_false] at hn
    rcases hn with rfl | rfl <;> norm_num
  · rw [h]
    rw [abs_of_nonneg (by norm_num)]
    norm_num

lemma historyAppend_length_le (h : List PricePoint) (p : PricePoint)
    (hl : h.length ≤ 100) : (historyAppend h p).length ≤ 100 := by
  simp only [historyAppend]
  split_ifs with hc <;>
    simp only [List.length_tail, List.length_append, List.length_singleton]
      at hc ⊢ <;> omega

lemma historyAppend_suffix (h : List PricePoint) (p : PricePoint) :
    (historyAppend h p).IsSuffix (h ++ [p]) := by
  simp only [historyAppend]
  split_ifs with hc
  · exact List.tail_suffix _
  · exact List.suffix_refl _

lemma suffix_append_right {α : Type} {a b : List α} (h : a.IsSuffix b)
    (c : List α) : (a ++ c).IsSuffix (b ++ c) := by
  obtain ⟨t, rfl⟩ := h
  exact ⟨t, (List.append_assoc t a c).symm⟩

lemma foldl_historyAppend_length (ps : List PricePoint) :
    ∀ init : List PricePoint, init.length ≤ 100 →
      (ps.foldl historyAppend init).length ≤ 100 := by
  induction ps with
  | nil => intro init h; simpa using h
  | cons p ps ih =>
      intro init h
      simp only [List.foldl_cons]
      exact ih _ (historyAppend_length_le init p h)

lemma foldl_historyAppend_suffix (ps : List PricePoint) :
    ∀ init : List PricePoint,
      (ps.foldl historyAppend init).IsSuffix (init ++ ps) := by
  induction ps with
  | nil => intro init; rw [List.append_nil]; exact List.suffix_refl init
  | cons p ps ih =>
      intro init
      simp only [List.foldl_cons]
      have h1 := ih (historyAppend init p)
      have h2 : ((historyAppend init p) ++ ps).IsSuffix ((init ++ [p]) ++ ps) :=
        suffix_append_right (historyAppend_suffix init p) ps
      have h3 : (init ++ [p]) ++ ps = init ++ (p :: ps) := by simp
      exact h3 ▸ h1.trans h2

lemma newsAppend_length_le (news evs : List NewsEvent) :
    (newsAppend news evs).length ≤ 50 := by
  simp only [newsAppend]
  split_ifs with hc <;>
    simp only [List.length_drop, List.length_append] at hc ⊢ <;> omega

lemma newsAppend_length_eq (news evs : List NewsEvent)
    (hg : 50 < (news ++ evs).length) : (newsAppend news evs).length = 50 := by
  simp only [newsAppend, if_pos hg, List.length_drop]
  omega

lemma newsAppend_suffix (news evs : List NewsEvent) :
    (newsAppend news evs).IsSuffix (news ++ evs) := by
  simp only [newsAppend]
  split_ifs with hc
  · exact List.drop_suffix _ _
  · exact List.suffix_refl _

lemma foldl_newsAppend_length (batches : List (List NewsEvent)) :
    ∀ init : List NewsEvent, init.length ≤ 50 →
      (batches.foldl newsAppend init).length ≤ 50 := by
  induction batches with
  | nil => intro init h; simpa using h
  | cons b bs ih =>
      intro init _
      simp only [List.foldl_cons]
      exact ih _ (newsAppend_length_le init b)

/-- C4: every per-ticker history buffer stays within 100 entries under any
sequence of appends from its one-point initialization, the news window stays
within 50 entries under any sequence of batched appends from empty, eviction
is from the head until the length equals the capacity, the retained contents
are a contiguous suffix of the arrival order, and a ticker's buffer starts
with exactly one point at the base price. -/
theorem C4_buffer_invariants :
    (∀ (t : String) (b : ℚ) (now : ℤ),
      initializePriceHistory t b now =
        [{ ticker := t, price := b, timestamp := now }]) ∧
    (∀ (t : String) (b : ℚ) (now : ℤ) (ps : List PricePoint),
      (ps.foldl historyAppend (initializePriceHistory t b now)).length ≤ 100) ∧
    (∀ (t : String) (b : ℚ) (now : ℤ) (ps : List PricePoint),
      (ps.foldl historyAppend (initializePriceHistory t b now)).IsSuffix
        (initializePriceHistory t b now ++ ps)) ∧
    (∀ (h : List PricePoint) (p : PricePoint),
      h.length = 100 → (historyAppend h p).length = 100) ∧
    (∀ batches : List (List NewsEvent),
      (batches.foldl newsAppend []).length ≤ 50) ∧
    (∀ news evs : List NewsEvent,
      50 < (news ++ evs).length → (newsAppend news evs).length = 50) ∧
    (∀ news evs : List NewsEvent,
      (newsAppend news evs).IsSuffix (news ++ evs)) := by
  refine ⟨fun t b now => rfl, ?_, ?_, ?_, ?_, ?_, ?_⟩
  · intro t b now ps
    exact foldl_historyAppend_length ps _ (by simp [initializePriceHistory])
  · intro t b now ps
    exact foldl_historyAppend_suffix ps _
  · intro h p hl
    simp only [historyAppend]
    rw [if_pos (by simp [List.length_append, hl])]
    simp [List.length_tail, List.length_append, hl]
  · intro batches
    exact foldl_newsAppend_length batches [] (by simp)
  · exact newsAppend_length_eq
  · exact newsAppend_suffix

/-- A price point for the C4 witness. -/
def cexPointC4 : PricePoint := { ticker := "H", price := 1, timestamp := 0 }

/-- A news event for the C4 witness. -/
def cexEventC4 : NewsEvent :=
  { ticker := "H", headline := "", body := "", sentiment := 0,
    magnitude := 1, timestamp := 0 }

/-- Witness for C4: a full 100-point buffer stays at 100 after an append, and
appending 51 events to an empty window leaves exactly 50. -/
theorem C4_buffer_invariants_witness :
    (List.replicate 100 cexPointC4).length = 100 ∧
    (historyAppend (List.replicate 100 cexPointC4) cexPointC4).length = 100 ∧
    50 < (([] : List NewsEvent) ++ List.replicate 51 cexEventC4).length ∧
    (newsAppend [] (List.replicate 51 cexEventC4)).length = 50 :=
  ⟨by simp, C4_buffer_invariants.2.2.2.1 _ cexPointC4 (by simp),
   by simp, C4_buffer_invariants.2.2.2.2.2.1 [] _ (by simp)⟩

lemma findPosition_some_mem (ps : List (String × Position)) (t : String)
    (pos : Position) (h : findPosition ps t = some pos) :
    ∃ key, (key, pos) ∈ ps := by
  simp only [findPosition, Option.map_eq_some'] at h
  obtain ⟨q, hq, rfl⟩ := h
  exact ⟨q.1, by simpa using List.mem_of_find?_eq_some hq⟩

lemma mem_setPosition (ps : List (String × Position)) (t : String)
    (pos : Position) (q : String × Position) (h : q ∈ setPosition ps t pos) :
    q = (t, pos) ∨ q ∈ ps := by
  simp only [setPosition] at h
  split_ifs at h with hc
  · obtain ⟨r, hr, hrq⟩ := List.mem_map.mp h
    by_cases hrt : (r.1 == t) = true
    · rw [if_pos hrt] at hrq
      exact Or.inl hrq.symm
    · rw [if_neg hrt] at hrq
      exact Or.inr (hrq ▸ hr)
  · rcases List.mem_append.mp h with h | h
    · exact Or.inr h
    · exact Or.inl (by simpa using h)

lemma buyStock_valid (p : Portfolio) (t : String) (s : ℤ) (pr : ℚ)
    (hv : ValidPortfolio p) (q : Portfolio) (h : buyStock p t s pr = .ok q) :
    ValidPortfolio q := by
  by_cases h1 : s ≤ 0
  · simp [buyStock, h1] at h
  by_cases h2 : p.cash < s * pr
  · simp [buyStock, h1, h2] at h
  have hs : 0 < s := lt_of_not_le h1
  cases hfp : findPosition p.positions t with
  | none =>
      simp only [buyStock, if_neg h1, if_neg h2, hfp] at h
      injection h with h
      subst h
      refine ⟨sub_nonneg.mpr (not_lt.mp h2), ?_⟩
      intro r hr
      rcases mem_setPosition _ _ _ _ hr with rfl | hr
      · simpa using hs
      · exact hv.2 r hr
  | some pos =>
      obtain ⟨key, hkey⟩ := findPosition_some_mem _ _ _ hfp
      have hpos : 0 < pos.shares := hv.2 _ hkey
      simp only [buyStock, if_neg h1, if_neg h2, hfp] at h
      injection h with h
      subst h
      refine ⟨sub_nonneg.mpr (not_lt.mp h2), ?_⟩
      intro r hr
      rcases mem_setPosition _ _ _ _ hr with rfl | hr
      · have : 0 < pos.shares + s := by omega
        simpa using this
      · exact hv.2 r hr

lemma sellStock_valid (p : Portfolio) (t : String) (s : ℤ) (pr : ℚ)
    (hv : ValidPortfolio p) (hpr : 0 ≤ pr) (q : Portfolio)
    (h : sellStock p t s pr = .ok q) : ValidPortfolio q := by
  by_cases h1 : s ≤ 0
  · simp [sellStock, h1] at h
  have hs : 0 < s := lt_of_not_le h1
  have hcash : (0 : ℚ) ≤ (s : ℚ) * pr := by
    have : (0 : ℚ) ≤ (s : ℚ) := by exact_mod_cast hs.le
    exact mul_nonneg this hpr
  cases hfp : findPosition p.positions t with
  | none => simp [sellStock, h1, hfp] at h
  | some pos =>
      by_cases h2 : pos.shares < s
      · simp [sellStock, h1, hfp, h2] at h
      by_cases h3 : pos.shares - s = 0
      · simp only [sellStock, if_neg h1, hfp, if_neg h2, if_pos h3] at h
        injection h with h
        subst h
        refine ⟨by show (0:ℚ) ≤ p.cash + (s:ℚ) * pr; have := hv.1; linarith, ?_⟩
        intro r hr
        exact hv.2 r (List.mem_of_mem_filter hr)
      · simp only [sellStock, if_neg h1, hfp, if_neg h2, if_neg h3] at h
        injection h with h
        subst h
        refine ⟨by show (0:ℚ) ≤ p.cash + (s:ℚ) * pr; have := hv.1; linarith, ?_⟩
        intro r hr
        rcases mem_setPosition _ _ _ _ hr with rfl | hr
        · have hle : s ≤ pos.shares := not_lt.mp h2
          have : 0 < pos.shares - s := by omega
          simpa using this
        · exact hv.2 r hr

/-- The prices quoted along a trade sequence are nonnegative. -/
def NonnegPrices (ops : List TradeOp) : Prop := ∀ op ∈ ops, 0 ≤ op.price

instance (ops : List TradeOp) : Decidable (NonnegPrices ops) := by
  unfold NonnegPrices; infer_instance

lemma applyTradeOp_valid (p : Portfolio) (op : TradeOp)
    (hv : ValidPortfolio p) (hpr : 0 ≤ op.price) :
    ValidPortfolio (applyTradeOp p op) := by
  cases op with
  | buy t s pr =>
      simp only [TradeOp.price] at hpr
      cases hb : buyStock p t s pr with
      | ok q =>
          simp only [applyTradeOp, hb]
          exact buyStock_valid p t s pr hv q hb
      | error e => simpa only [applyTradeOp, hb] using hv
  | sell t s pr =>
      simp only [TradeOp.price] at hpr
      cases hb : sellStock p t s pr with
      | ok q =>
          simp only [applyTradeOp, hb]
          exact sellStock_valid p t s pr hv hpr q hb
      | error e => simpa only [applyTradeOp, hb] using hv

/-- C5: from any valid portfolio (cash ≥ 0, all stored positions strictly
positive), after each operation of any buy/sell sequence quoted at
nonnegative prices — failed operations leaving the portfolio unchanged — cash
stays ≥ 0 and every stored position keeps shares > 0. -/
theorem C5_portfolio_invariants (p : Portfolio) (ops : List TradeOp)
    (hv : ValidPortfolio p) (hpr : NonnegPrices ops) (n : ℕ) :
    ValidPortfolio ((ops.take n).foldl applyTradeOp p) := by
  have key : ∀ (l : List TradeOp) (p0 : Portfolio), ValidPortfolio p0 →
      NonnegPrices l → ValidPortfolio (l.foldl applyTradeOp p0) := by
    intro l
    induction l with
    | nil => intro p0 h _; simpa using h
    | cons op l ih =>
        intro p0 h hl
        simp only [List.foldl_cons]
        exact ih _ (applyTradeOp_valid p0 op h (hl op (List.mem_cons_self _ _)))
          (fun o ho => hl o (List.mem_cons_of_mem _ ho))
  exact key _ p hv (fun o ho => hpr o (List.take_subset n ops ho))

/-- The starting portfolio of the C5 witness. -/
def cexPortfolioC5 : Portfolio := { cash := 100000, positions := [] }

/-- The trade sequence of the C5 witness. -/
def cexOpsC5 : List TradeOp := [.buy "ACME" 10 100]

/-- Witness for C5: one successful buy from the fresh portfolio. -/
theorem C5_portfolio_invariants_witness :
    ValidPortfolio cexPortfolioC5 ∧ NonnegPrices cexOpsC5 ∧
    ValidPortfolio ((cexOpsC5.take 1).foldl applyTradeOp cexPortfolioC5) :=
  ⟨by decide, by decide,
   C5_portfolio_invariants cexPortfolioC5 cexOpsC5 (by decide) (by decide) 1⟩

lemma find?_map_set (ps : List (String × Position)) (t : String)
    (pos : Position) (hc : ps.any (fun q => q.1 == t) = true) :
    (ps.map (fun q => if q.1 == t then (t, pos) else q)).find?
      (fun q => q.1 == t) = some (t, pos) := by
  induction ps with
  | nil => simp at hc
  | cons a as ih =>
      by_cases hat : (a.1 == t) = true
      · rw [List.map_cons, if_pos hat]
        exact List.find?_cons_of_pos _ (by simp)
      · rw [List.map_cons, if_neg hat]
        rw [List.find?_cons_of_neg _ (by simp [hat])]
        simp only [List.any_cons, hat, Bool.false_or] at hc
        exact ih hc

lemma find?_append_set (ps : List (String × Position)) (t : String)
    (pos : Position) (hn : ps.any (fun q => q.1 == t) = false) :
    (ps ++ [(t, pos)]).find? (fun q => q.1 == t) = some (t, pos) := by
  induction ps with
  | nil => exact List.find?_cons_of_pos _ (by simp)
  | cons a as ih =>
      simp only [List.any_cons, Bool.or_eq_false_iff] at hn
      rw [List.cons_append, List.find?_cons_of_neg _ (by simp [hn.1])]
      exact ih hn.2

lemma findPosition_setPosition (ps : List (String × Position)) (t : String)
    (pos : Position) : findPosition (setPosition ps t pos) t = some pos := by
  simp only [setPosition, findPosition]
  by_cases hc : ps.any (fun q => q.1 == t) = true
  · rw [if_pos hc, find?_map_set ps t pos hc]
    rfl
  · have hn : ps.any (fun q => q.1 == t) = false := Bool.eq_false_iff.mpr hc
    rw [if_neg hc, find?_append_set ps t pos hn]
    rfl

/-- C6: from a valid portfolio, a successful buy followed by a sell of the
same quantity at the same price restores the cash to its prior value exactly
(spread-free execution over exact rational arithmetic). -/
theorem C6_buy_sell_roundtrip (p : Portfolio) (t : String) (s : ℤ) (pr : ℚ)
    (hv : ValidPortfolio p) (p₁ : Portfolio)
    (hbuy : buyStock p t s pr = .ok p₁) :
    ∃ p₂, sellStock p₁ t s pr = .ok p₂ ∧ p₂.cash = p.cash := by
  by_cases h1 : s ≤ 0
  · simp [buyStock, h1] at hbuy
  by_cases h2 : p.cash < s * pr
  · simp [buyStock, h1, h2] at hbuy
  have hs : 0 < s := lt_of_not_le h1
  cases hfp : findPosition p.positions t with
  | none =>
      simp only [buyStock, if_neg h1, if_neg h2, hfp] at hbuy
      injection hbuy with hbuy
      subst hbuy
      have hsell : sellStock
          ⟨p.cash - s * pr, setPosition p.positions t ⟨s, pr⟩⟩ t s pr =
          .ok ⟨p.cash - s * pr + s * pr,
            removePosition (setPosition p.positions t ⟨s, pr⟩) t⟩ := by
        simp only [sellStock, if_neg h1, findPosition_setPosition]
        rw [if_neg (lt_irrefl s), if_pos (sub_self s)]
      exact ⟨_, hsell, by show p.cash - (s:ℚ) * pr + (s:ℚ) * pr = p.cash; ring⟩
  | some pos =>
      obtain ⟨key, hkey⟩ := findPosition_some_mem _ _ _ hfp
      have hpos : 0 < pos.shares := hv.2 _ hkey
      simp only [buyStock, if_neg h1, if_neg h2, hfp] at hbuy
      injection hbuy with hbuy
      subst hbuy
      have hns : ¬ pos.shares + s < s := by omega
      have hnz : ¬ pos.shares + s - s = 0 := by omega
      have hsell : sellStock
          ⟨p.cash - s * pr, setPosition p.positions t
            ⟨pos.shares + s, (pos.shares * pos.averageCost + s * pr) /
              (pos.shares + s)⟩⟩ t s pr =
          .ok ⟨p.cash - s * pr + s * pr,
            setPosition (setPosition p.positions t
              ⟨pos.shares + s, (pos.shares * pos.averageCost + s * pr) /
                (pos.shares + s)⟩) t
              ⟨pos.shares + s - s, (pos.shares * pos.averageCost + s * pr) /
                (pos.shares + s)⟩⟩ := by
        simp only [sellStock, if_neg h1, findPosition_setPosition]
        rw [if_neg hns, if_neg hnz]
      exact ⟨_, hsell, by show p.cash - (s:ℚ) * pr + (s:ℚ) * pr = p.cash; ring⟩

/-- The starting portfolio of the C6 witness. -/
def cexPortfolioC6 : Portfolio := { cash := 100000, positions := [] }

/-- The portfolio after the C6 witness buy: 10 ACME at 100. -/
def cexMidC6 : Portfolio :=
  { cash := 99000, positions := [("ACME", { shares := 10, averageCost := 100 })] }

/-- Witness for C6: buy 10 ACME at 100 from 100000 cash, sell them back. -/
theorem C6_buy_sell_roundtrip_witness :
    ValidPortfolio cexPortfolioC6 ∧
    buyStock cexPortfolioC6 "ACME" 10 100 = .ok cexMidC6 ∧
    ∃ p₂, sellStock cexMidC6 "ACME" 10 100 = .ok p₂ ∧
      p₂.cash = cexPortfolioC6.cash := by
  have hb : buyStock cexPortfolioC6 "ACME" 10 100 = .ok cexMidC6 := by
    norm_num [buyStock, findPosition, setPosition, cexPortfolioC6, cexMidC6]
  exact ⟨by decide, hb,
    C6_buy_sell_roundtrip cexPortfolioC6 "ACME" 10 100 (by decide) cexMidC6 hb⟩

/-- C7: if the ledger call behind `handleBuy`/`handleSell` fails, the error is
propagated to the caller unchanged and the market state — in particular the
portfolio — is returned entirely unchanged. -/
theorem C7_trade_error_propagation (state : MarketState) (t : String)
    (s : ℤ) (e : TradeError) :
    (buyStock state.portfolio t s (state.prices t) = .error e →
      handleBuy state t s = (state, some e)) ∧
    (sellStock state.portfolio t s (state.prices t) = .error e →
      handleSell state t s = (state, some e)) := by
  constructor
  · intro h
    simp only [handleBuy, h]
  · intro h
    simp only [handleSell, h]

/-- The market state of the C7 witness. -/
def cexStateC7 : MarketState :=
  { companies := [], prices := fun _ => 100, priceHistory := fun _ => [],
    news := [], portfolio := { cash := 0, positions := [] } }

/-- Witness for C7: a zero-share buy and sell both fail with InvalidQuantity
and leave the state untouched. -/
theorem C7_trade_error_propagation_witness :
    buyStock cexStateC7.portfolio "A" 0 (cexStateC7.prices "A") =
      .error .invalidQuantity ∧
    sellStock cexStateC7.portfolio "A" 0 (cexStateC7.prices "A") =
      .error .invalidQuantity ∧
    handleBuy cexStateC7 "A" 0 = (cexStateC7, some .invalidQuantity) ∧
    handleSell cexStateC7 "A" 0 = (cexStateC7, some .invalidQuantity) :=
  ⟨rfl, rfl,
   (C7_trade_error_propagation cexStateC7 "A" 0 .invalidQuantity).1 rfl,
   (C7_trade_error_propagation cexStateC7 "A" 0 .invalidQuantity).2 rfl⟩

lemma tickFold_not_mem (now : ℤ) (u : String → ℚ) (prev : MarketState)
    (cs : List Company) (t : String) :
    ∀ acc, t ∉ cs.map Company.ticker →
      (cs.foldl (tickCompany now u prev) acc).1 t = acc.1 t ∧
      (cs.foldl (tickCompany now u prev) acc).2 t = acc.2 t := by
  induction cs with
  | nil => intro acc _; exact ⟨rfl, rfl⟩
  | cons d cs ih =>
      intro acc h
      simp only [List.map_cons, List.mem_cons, not_or] at h
      obtain ⟨hne, hnin⟩ := h
      simp only [List.foldl_cons]
      have hrest := ih (tickCompany now u prev acc d) hnin
      refine ⟨?_, ?_⟩
      · rw [hrest.1]
        simp only [tickCompany, updateFn, if_neg hne]
      · rw [hrest.2]
        simp only [tickCompany, updateFn, if_neg hne]

lemma tickFold_mem (now : ℤ) (u : String → ℚ) (prev : MarketState)
    (cs : List Company) (c : Company) :
    ∀ acc, c ∈ cs → (cs.map Company.ticker).Nodup →
      (cs.foldl (tickCompany now u prev) acc).1 c.ticker =
        calculateNewPrice (u c.ticker) now (prev.prices c.ticker) c
          prev.news ∧
      (cs.foldl (tickCompany now u prev) acc).2 c.ticker =
        historyAppend (prev.priceHistory c.ticker)
          { ticker := c.ticker,
            price := calculateNewPrice (u c.ticker) now
              (prev.prices c.ticker) c prev.news,
            timestamp := now } := by
  induction cs with
  | nil => intro acc h _; simp at h
  | cons d cs ih =>
      intro acc hmem hnd
      simp only [List.map_cons, List.nodup_cons] at hnd
      obtain ⟨hdn, hnd⟩ := hnd
      simp only [List.foldl_cons]
      rcases List.mem_cons.mp hmem with rfl | hmem
      · have hrest := tickFold_not_mem now u prev cs c.ticker
          (tickCompany now u prev acc c) hdn
        refine ⟨?_, ?_⟩
        · rw [hrest.1]
          simp [tickCompany, updateFn]
        · rw [hrest.2]
          simp [tickCompany, updateFn]
      · exact ih (tickCompany now u prev acc d) hmem hnd

/-- C8: within one tick firing every company's new price and appended history
point are computed from the previous snapshot's prices and news alone — no
company's update observes another company's same-tick update — and the
news/portfolio/companies components pass through unchanged into the single
replacement state. -/
theorem C8_tick_snapshot (prev : MarketState) (now : ℤ) (u : String → ℚ)
    (c : Company) (hnd : (prev.companies.map Company.ticker).Nodup)
    (hmem : c ∈ prev.companies) :
    (marketTick prev now u).prices c.ticker =
      calculateNewPrice (u c.ticker) now (prev.prices c.ticker) c
        prev.news ∧
    (marketTick prev now u).priceHistory c.ticker =
      historyAppend (prev.priceHistory c.ticker)
        { ticker := c.ticker,
          price := calculateNewPrice (u c.ticker) now (prev.prices c.ticker)
            c prev.news,
          timestamp := now } ∧
    (marketTick prev now u).news = prev.news ∧
    (marketTick prev now u).portfolio = prev.portfolio ∧
    (marketTick prev now u).companies = prev.companies := by
  have key := tickFold_mem now u prev prev.companies c
    (fun _ => 0, fun _ => []) hmem hnd
  exact ⟨key.1, key.2, rfl, rfl, rfl⟩

/-- The company of the C8/C10 witnesses. -/
def cexCompanyC8 : Company :=
  { ticker := "T", name := "", sector := "", description := "",
    basePrice := 50, volatility := 1 }

/-- The market state of the C8/C10 witnesses. -/
def cexStateC8 : MarketState :=
  { companies := [cexCompanyC8], prices := fun _ => 50,
    priceHistory := fun _ => [{ ticker := "T", price := 50, timestamp := 0 }],
    news := [], portfolio := { cash := 0, positions := [] } }

/-- Witness for C8 on a one-company roster. -/
theorem C8_tick_snapshot_witness :
    (cexStateC8.companies.map Company.ticker).Nodup ∧
    cexCompanyC8 ∈ cexStateC8.companies ∧
    ((marketTick cexStateC8 0 (fun _ => 1 / 2)).prices cexCompanyC8.ticker =
      calculateNewPrice ((fun _ => (1 / 2 : ℚ)) cexCompanyC8.ticker) 0
        (cexStateC8.prices cexCompanyC8.ticker) cexCompanyC8
        cexStateC8.news ∧
    (marketTick cexStateC8 0 (fun _ => 1 / 2)).priceHistory
        cexCompanyC8.ticker =
      historyAppend (cexStateC8.priceHistory cexCompanyC8.ticker)
        { ticker := cexCompanyC8.ticker,
          price := calculateNewPrice ((fun _ => (1 / 2 : ℚ))
              cexCompanyC8.ticker) 0
            (cexStateC8.prices cexCompanyC8.ticker) cexCompanyC8
            cexStateC8.news,
          timestamp := 0 } ∧
    (marketTick cexStateC8 0 (fun _ => 1 / 2)).news = cexStateC8.news ∧
    (marketTick cexStateC8 0 (fun _ => 1 / 2)).portfolio =
      cexStateC8.portfolio ∧
    (marketTick cexStateC8 0 (fun _ => 1 / 2)).companies =
      cexStateC8.companies) :=
  ⟨by simp [cexStateC8], by simp [cexStateC8],
   C8_tick_snapshot cexStateC8 0 (fun _ => 1 / 2) cexCompanyC8
     (by simp [cexStateC8]) (by simp [cexStateC8])⟩

lemma historyAppend_getLast? (h : List PricePoint) (p : PricePoint) :
    (historyAppend h p).getLast? = some p := by
  simp only [historyAppend]
  split_ifs with hc
  · cases h with
    | nil => simp at hc
    | cons a h2 =>
        rw [List.cons_append, List.tail_cons]
        exact List.getLast?_concat _
  · exact List.getLast?_concat _

/-- C10: after a tick firing, each company's prices entry equals the price of
the last point of its history, the appended point's ticker equals its map
key, and every point appended in the firing carries the firing's single
timestamp `now`. -/
theorem C10_tick_consistency (prev : MarketState) (now : ℤ) (u : String → ℚ)
    (c : Company) (hnd : (prev.companies.map Company.ticker).Nodup)
    (hmem : c ∈ prev.companies) :
    ((marketTick prev now u).priceHistory c.ticker).getLast? =
      some { ticker := c.ticker,
             price := (marketTick prev now u).prices c.ticker,
             timestamp := now } ∧
    (marketTick prev now u).priceHistory c.ticker =
      historyAppend (prev.priceHistory c.ticker)
        { ticker := c.ticker,
          price := (marketTick prev now u).prices c.ticker,
          timestamp := now } := by
  have key := tickFold_mem now u prev prev.companies c
    (fun _ => 0, fun _ => []) hmem hnd
  have hp : (marketTick prev now u).prices c.ticker =
      calculateNewPrice (u c.ticker) now (prev.prices c.ticker) c
        prev.news := key.1
  have hh : (marketTick prev now u).priceHistory c.ticker =
      historyAppend (prev.priceHistory c.ticker)
        { ticker := c.ticker,
          price := calculateNewPrice (u c.ticker) now (prev.prices c.ticker)
            c prev.news,
          timestamp := now } := key.2
  constructor
  · rw [hp, hh]
    exact historyAppend_getLast? _ _
  · rw [hp]
    exact hh

/-- Witness for C10 on the one-company roster of the C8 witness. -/
theorem C10_tick_consistency_witness :
    (cexStateC8.companies.map Company.ticker).Nodup ∧
    cexCompanyC8 ∈ cexStateC8.companies ∧
    (((marketTick cexStateC8 5 (fun _ => 1 / 2)).priceHistory
        cexCompanyC8.ticker).getLast? =
      some { ticker := cexCompanyC8.ticker,
             price := (marketTick cexStateC8 5 (fun _ => 1 / 2)).prices
               cexCompanyC8.ticker,
             timestamp := 5 } ∧
    (marketTick cexStateC8 5 (fun _ => 1 / 2)).priceHistory
        cexCompanyC8.ticker =
      historyAppend (cexStateC8.priceHistory cexCompanyC8.ticker)
        { ticker := cexCompanyC8.ticker,
          price := (marketTick cexStateC8 5 (fun _ => 1 / 2)).prices
            cexCompanyC8.ticker,
          timestamp := 5 }) :=
  ⟨by simp [cexStateC8], by simp [cexStateC8],
   C10_tick_consistency cexStateC8 5 (fun _ => 1 / 2) cexCompanyC8
     (by simp [cexStateC8]) (by simp [cexStateC8])⟩

/-- C9: every event returned by `generateNews` carries the ticker of a
company in the input roster — unknown tickers from the external collaborator
are filtered out — and on external failure the result is exactly the local
fallback generator's output rather than a failure. -/
theorem C9_news_ticker_validity (companies : List Company) (count : ℕ)
    (now : ℤ) (response : Option (List RawNews)) (pickCompany : ℕ → ℕ)
    (pickPositive : ℕ → Bool) (pickTemplate : ℕ → ℕ) (pickBody : ℕ → ℕ) :
    (∀ e ∈ generateNews companies count now response pickCompany pickPositive
        pickTemplate pickBody, e.ticker ∈ companies.map Company.ticker) ∧
    generateNews companies count now none pickCompany pickPositive
        pickTemplate pickBody =
      generateFallbackNews companies count now pickCompany pickPositive
        pickTemplate pickBody := by
  refine ⟨?_, rfl⟩
  intro e he
  cases response with
  | some raw =>
      simp only [generateNews, generateNewsSuccess, List.mem_map] at he
      obtain ⟨n, hn, rfl⟩ := he
      have hn2 : n ∈ raw.filter
          (fun n => companies.any (fun c => c.ticker == n.ticker)) :=
        List.take_subset _ _ hn
      have hany := (List.mem_filter.mp hn2).2
      obtain ⟨c, hc, hct⟩ := List.any_eq_true.mp hany
      have hctx : c.ticker = n.ticker := by simpa using hct
      exact List.mem_map.mpr ⟨c, hc, by simpa using hctx⟩
  | none =>
      simp only [generateNews, generateFallbackNews, List.mem_filterMap] at he
      obtain ⟨i, hi, hfi⟩ := he
      cases hg : companies.get? (pickCompany i % companies.length) with
      | none => rw [hg] at hfi; simp at hfi
      | some company =>
          rw [hg] at hfi
          simp only at hfi
          cases ht : (if pickPositive i then positiveTemplates
              else negativeTemplates).get? (pickTemplate i %
                (if pickPositive i then positiveTemplates
                  else negativeTemplates).length) with
          | none => rw [ht] at hfi; simp at hfi
          | some template =>
              rw [ht] at hfi
              simp only [Option.some.injEq] at hfi
              subst hfi
              exact List.mem_map.mpr ⟨company, List.get?_mem hg, rfl⟩

/-- The raw external payload of the C9 witness. -/
def cexRawC9 : RawNews :=
  { ticker := "T", headline := "h", body := "b", sentiment := 1,
    magnitude := 1 }

/-- The event produced from `cexRawC9` at timestamp 0. -/
def cexEventC9 : NewsEvent :=
  { ticker := "T", headline := "h", body := "b", sentiment := 1,
    magnitude := 1, timestamp := 0 }

/-- Witness for C9: a successful external response for the one-company
roster yields an event whose ticker is in the roster. -/
theorem C9_news_ticker_validity_witness :
    cexEventC9 ∈ generateNews [cexCompanyC8] 1 0 (some [cexRawC9])
      (fun _ => 0) (fun _ => true) (fun _ => 0) (fun _ => 0) ∧
    cexEventC9.ticker ∈ [cexCompanyC8].map Company.ticker :=
  have hmem : cexEventC9 ∈ generateNews [cexCompanyC8] 1 0 (some [cexRawC9])
      (fun _ => 0) (fun _ => true) (fun _ => 0) (fun _ => 0) := by
    simp [generateNews, generateNewsSuccess, cexRawC9, cexEventC9,
      cexCompanyC8, List.filter]
  ⟨hmem,
   (C9_news_ticker_validity [cexCompanyC8] 1 0 (some [cexRawC9])
     (fun _ => 0) (fun _ => true) (fun _ => 0) (fun _ => 0)).1
     cexEventC9 hmem⟩
